import Mathlib

/-!
Shallow embedding of the game-state core of `src/main.rs` (a Tetris clone).

Modelling conventions:
* `Color32` is the closed set of color constants the program uses; the Rust
  `Color32::TRANSPARENT` marks an empty board cell.
* Rust `Vec<Vec<_>>` becomes `List (List _)`; `usize`/`u32` become `Nat`
  (the program's coordinates and score stay far below any overflow bound,
  and `u32` overflow would panic in a debug build rather than wrap);
  the `i32` offsets of `move_piece` become `Int`, and
  `(a as i32 + d).max(0) as usize` becomes `((a : Int) + d).toNat`,
  which agrees because `Int.toNat` clamps negatives to `0`.
* In-place index assignment `g[y][x] = v` becomes `set2 g y x v`; out of
  bounds the Rust program would panic, while `set2` is a no-op — every
  claim below only exercises in-bounds writes.
* The random draw of `rand::thread_rng().gen_range(0..shapes.len())` is
  modelled by an explicit parameter `k`, reduced modulo the table length.
* `Instant`/`Duration` timing state becomes `Nat` timestamps; the
  per-frame `update` takes the current time `now` as a parameter.
-/

set_option autoImplicit false

def BOARD_WIDTH : Nat := 10

def BOARD_HEIGHT : Nat := 20

/-- The color constants used by the program; `transparent` is the empty cell. -/
inductive Color32 where
  | transparent
  | khaki
  | blue
  | gold
  | yellow
  | green
  | brown
  | red
deriving DecidableEq, Repr

/-- Rust struct `Tetromino`: boolean shape mask, color, and anchor `(x, y)`. -/
structure Tetromino where
  shape : List (List Bool)
  color : Color32
  x : Nat
  y : Nat
deriving DecidableEq, Repr

/-- Rust struct `TetrisGame` (timing state as `Nat` timestamps). -/
structure TetrisGame where
  board : List (List Color32)
  current_piece : Tetromino
  game_over : Bool
  score : Nat
  last_update : Nat
  update_interval : Nat
deriving DecidableEq, Repr

/-- Write `v` at row `i`, column `j` of a grid; no-op when out of bounds. -/
def set2 {α : Type} (g : List (List α)) (i j : Nat) (v : α) : List (List α) :=
  g.set i ((g.getD i []).set j v)

/-- Read the board cell at column `x`, row `y` (`board[y][x]`). -/
def cellAt (board : List (List Color32)) (x y : Nat) : Color32 :=
  (board.getD y []).getD x Color32.transparent

/-- The fixed table of the seven `(shape, color)` templates of `generate_piece`. -/
def shapes : List (List (List Bool) × Color32) :=
  [ ([[true, true, true, true], [false, false, false, false]], Color32.khaki),
    ([[true, false, false], [true, true, true]], Color32.blue),
    ([[false, false, true], [true, true, true]], Color32.gold),
    ([[true, true], [true, true]], Color32.yellow),
    ([[false, true, true], [true, true, false]], Color32.green),
    ([[false, true, false], [true, true, true]], Color32.brown),
    ([[true, true, false], [false, true, true]], Color32.red) ]

/-- Rust `TetrisGame::generate_piece`; the random index is the parameter `k`. -/
def generate_piece (k : Nat) : Tetromino :=
  let pair := shapes.getD (k % shapes.length) ([], Color32.transparent)
  { shape := pair.1, color := pair.2, x := BOARD_WIDTH / 2 - 1, y := 0 }

/-- Rust `TetrisGame::piece_collides`, with the same short-circuit order:
bounds are checked before the board cell is read. -/
def piece_collides (board : List (List Color32)) (p : Tetromino) : Bool :=
  p.shape.enum.any (fun q =>
    q.2.enum.any (fun r =>
      r.2 && (decide (BOARD_WIDTH ≤ p.x + r.1) ||
              decide (BOARD_HEIGHT ≤ p.y + q.1) ||
              decide (cellAt board (p.x + r.1) (p.y + q.1) ≠ Color32.transparent))))

/-- Rust `TetrisGame::spawn_piece`, with the random draw as parameter `k`. -/
def spawn_piece (s : TetrisGame) (k : Nat) : TetrisGame :=
  if s.game_over then s
  else
    let p := generate_piece k
    if piece_collides s.board p
    then { s with current_piece := p, game_over := true }
    else { s with current_piece := p }

/-- A row is full when every cell differs from `TRANSPARENT`
(the `retain` predicate of `clear_lines`, negated). -/
def row_full (row : List Color32) : Bool :=
  row.all (fun c => c ≠ Color32.transparent)

/-- Rust `TetrisGame::clear_lines`: retain the non-full rows, insert as many
fresh empty rows at index 0, add `100` per cleared row to the score. -/
def clear_lines (s : TetrisGame) : TetrisGame :=
  let lines_cleared := s.board.countP row_full
  { s with
    board := List.replicate lines_cleared (List.replicate BOARD_WIDTH Color32.transparent)
               ++ s.board.filter (fun row => !(row_full row)),
    score := s.score + lines_cleared * 100 }

/-- The board after the write loop of `lock_piece`: every occupied mask cell's
color is assigned at `board[y + dy][x + dx]`. -/
def lock_board (board : List (List Color32)) (p : Tetromino) : List (List Color32) :=
  p.shape.enum.foldl
    (fun b q =>
      q.2.enum.foldl
        (fun b2 r => if r.2 then set2 b2 (p.y + q.1) (p.x + r.1) p.color else b2)
        b)
    board

/-- Rust `TetrisGame::lock_piece`: write the piece into the board, then
`clear_lines`, then `spawn_piece`. -/
def lock_piece (s : TetrisGame) (k : Nat) : TetrisGame :=
  spawn_piece (clear_lines { s with board := lock_board s.board s.current_piece }) k

/-- Rust `TetrisGame::move_piece`.  The tentative move clamps each coordinate
at zero; on collision the offset is subtracted back (again clamped at zero),
and a downward collision locks the piece.  `k` feeds the spawn inside a lock. -/
def move_piece (s : TetrisGame) (dx dy : Int) (k : Nat) : TetrisGame :=
  let x1 := ((s.current_piece.x : Int) + dx).toNat
  let y1 := ((s.current_piece.y : Int) + dy).toNat
  let s1 := { s with current_piece := { s.current_piece with x := x1, y := y1 } }
  if piece_collides s1.board s1.current_piece then
    let x2 := ((x1 : Int) - dx).toNat
    let y2 := ((y1 : Int) - dy).toNat
    let s2 := { s1 with current_piece := { s1.current_piece with x := x2, y := y2 } }
    if 0 < dy then lock_piece s2 k else s2
  else s1

/-- The shape produced by the rotation loop of `rotate_piece`:
start from a `cols × rows` grid of `false` and assign
`new[x][rows - 1 - y] = old[y][x]`.  (On a jagged mask whose later row is
longer than row 0 the Rust code would panic; `set2` drops such writes.
All masks of the program are rectangular.) -/
def rotate_shape (shape : List (List Bool)) : List (List Bool) :=
  let rows := shape.length
  let cols := (shape.headD []).length
  shape.enum.foldl
    (fun acc q =>
      q.2.enum.foldl
        (fun acc2 r => set2 acc2 r.1 (rows - 1 - q.1) r.2)
        acc)
    (List.replicate cols (List.replicate rows false))

/-- Rust `TetrisGame::rotate_piece`: rotate the mask, and restore the old
mask when the rotated piece collides (no wall-kick, anchor untouched). -/
def rotate_piece (s : TetrisGame) : TetrisGame :=
  let old_shape := s.current_piece.shape
  let s1 := { s with current_piece := { s.current_piece with shape := rotate_shape old_shape } }
  if piece_collides s1.board s1.current_piece then
    { s1 with current_piece := { s1.current_piece with shape := old_shape } }
  else s1

/-- Rust `TetrisGame::update` (the gravity tick): when the interval has
elapsed and the game is not over, move down one row and reset the
last-update timestamp to `now`. -/
def update (s : TetrisGame) (now : Nat) (k : Nat) : TetrisGame :=
  if s.update_interval ≤ now - s.last_update then
    if !s.game_over then
      { move_piece s 0 1 k with last_update := now }
    else s
  else s

/-- Well-formed board: exactly `BOARD_HEIGHT` rows of `BOARD_WIDTH` cells. -/
def boardWF (board : List (List Color32)) : Prop :=
  board.length = BOARD_HEIGHT ∧ ∀ row ∈ board, row.length = BOARD_WIDTH

instance : DecidablePred boardWF := fun board => by
  unfold boardWF
  exact inferInstance

/-! ### Concrete states used by witnesses and counterexamples -/

/-- A fully empty board row. -/
def empty_row : List Color32 := List.replicate BOARD_WIDTH Color32.transparent

/-- The fully empty board. -/
def empty_board : List (List Color32) := List.replicate BOARD_HEIGHT empty_row

/-- A one-cell piece at anchor `(x, y)`. -/
def single_piece (x y : Nat) : Tetromino :=
  { shape := [[true]], color := Color32.red, x := x, y := y }

/-- Board whose only occupied cell is `(0, 0)`. -/
def corner_board : List (List Color32) :=
  (Color32.khaki :: List.replicate 9 Color32.transparent) :: List.replicate 19 empty_row

/-- State whose one-cell piece sits at the corner `(0, 0)` on top of an
occupied board cell. -/
def sCorner : TetrisGame :=
  { board := corner_board, current_piece := single_piece 0 0,
    game_over := false, score := 0, last_update := 0, update_interval := 1 }

/-- State whose one-cell piece sits at the right wall `(9, 0)` of an empty board. -/
def sRight : TetrisGame :=
  { board := empty_board, current_piece := single_piece 9 0,
    game_over := false, score := 0, last_update := 0, update_interval := 1 }

/-- State whose one-cell piece rests on the floor at `(4, 19)`. -/
def sFloorA : TetrisGame :=
  { board := empty_board, current_piece := single_piece 4 19,
    game_over := false, score := 0, last_update := 0, update_interval := 1 }

/-- State whose one-cell piece rests on the floor at `(0, 19)`. -/
def sFloorB : TetrisGame :=
  { board := empty_board, current_piece := single_piece 0 19,
    game_over := false, score := 0, last_update := 0, update_interval := 1 }

/-- State holding the square piece at `(4, 0)` over an empty board. -/
def sO : TetrisGame :=
  { board := empty_board,
    current_piece := { shape := [[true, true], [true, true]], color := Color32.yellow,
                       x := 4, y := 0 },
    game_over := false, score := 0, last_update := 0, update_interval := 1 }

/-- Game-over state whose top two rows are fully occupied and whose piece
is stuck colliding at its spawn position. -/
def sOver : TetrisGame :=
  { board := List.replicate 2 (List.replicate 10 Color32.red) ++ List.replicate 18 empty_row,
    current_piece := single_piece 4 0,
    game_over := true, score := 0, last_update := 0, update_interval := 1 }

/-- Running state with an empty board and a freshly spawned one-cell piece. -/
def sFresh : TetrisGame :=
  { board := empty_board, current_piece := single_piece 4 0,
    game_over := false, score := 0, last_update := 0, update_interval := 1 }

/-- State whose top row is full and the rest of the board empty. -/
def sClear : TetrisGame :=
  { board := List.replicate 10 Color32.red :: List.replicate 19 empty_row,
    current_piece := single_piece 4 5,
    game_over := false, score := 0, last_update := 0, update_interval := 1 }

/-- State whose one-cell piece sits at the left wall `(0, 0)` of an empty board. -/
def sLeft : TetrisGame :=
  { board := empty_board, current_piece := single_piece 0 0,
    game_over := false, score := 0, last_update := 0, update_interval := 1 }

/-! ### Basic list lemmas used throughout -/

theorem getD_set_self {α : Type} :
    ∀ (l : List α) (i : Nat) (v d : α), i < l.length → (l.set i v).getD i d = v := by
  intro l
  induction l with
  | nil => intro i v d h; simp at h
  | cons a t ih =>
      intro i v d h
      cases i with
      | zero => rfl
      | succ i =>
          simpa [List.set, List.getD_cons_succ] using ih i v d (by simpa using h)

theorem getD_set_ne {α : Type} (l : List α) (i j : Nat) (v d : α) (h : i ≠ j) :
    (l.set i v).getD j d = l.getD j d := by
  by_cases hj : j < l.length
  · rw [List.getD_eq_getElem _ d (by simpa using hj), List.getD_eq_getElem _ d hj]
    exact List.getElem_set_ne h _
  · rw [List.getD_eq_default _ d (by simpa using Nat.le_of_not_lt hj),
        List.getD_eq_default _ d (Nat.le_of_not_lt hj)]

theorem set_getD_self {α : Type} :
    ∀ (l : List α) (i : Nat) (d : α), i < l.length → l.set i (l.getD i d) = l := by
  intro l
  induction l with
  | nil => intro i d h; simp at h
  | cons a t ih =>
      intro i d h
      cases i with
      | zero => rfl
      | succ i =>
          simpa [List.set, List.getD_cons_succ] using ih i d (by simpa using h)

theorem getD_oob {α : Type} (l : List α) (i : Nat) (d : α) (h : l.length ≤ i) :
    l.getD i d = d :=
  List.getD_eq_default l d h

theorem list_ext_getD {α : Type} (d : α) :
    ∀ (a b : List α), a.length = b.length →
      (∀ i, i < a.length → a.getD i d = b.getD i d) → a = b := by
  intro a
  induction a with
  | nil =>
      intro b hlen _
      exact (List.length_eq_zero.mp hlen.symm).symm
  | cons x t ih =>
      intro b hlen hget
      cases b with
      | nil => simp at hlen
      | cons y u =>
          have hx : x = y := hget 0 (by simp)
          have ht : t = u := by
            apply ih u (by simpa using hlen)
            intro i hi
            simpa [List.getD_cons_succ] using hget (i + 1) (by simpa using Nat.succ_lt_succ hi)
          rw [hx, ht]

theorem any_enumFrom {α : Type} (d : α) :
    ∀ (l : List α) (n : Nat) (f : Nat × α → Bool),
      ((l.enumFrom n).any f = true) ↔
        ∃ i, i < l.length ∧ f (n + i, l.getD i d) = true := by
  intro l
  induction l with
  | nil => intro n f; simp
  | cons a t ih =>
      intro n f
      show (f (n, a) || (t.enumFrom (n + 1)).any f) = true ↔ _
      rw [Bool.or_eq_true, ih (n + 1) f]
      constructor
      · rintro (h0 | ⟨i, hi, hf⟩)
        · exact ⟨0, by simp, by simpa using h0⟩
        · exact ⟨i + 1, by simpa using Nat.succ_lt_succ hi,
            by simpa [Nat.add_assoc, Nat.add_comm 1 i] using hf⟩
      · rintro ⟨i, hi, hf⟩
        cases i with
        | zero => exact Or.inl (by simpa using hf)
        | succ i =>
            exact Or.inr ⟨i, by simpa using Nat.lt_of_succ_lt_succ hi,
              by simpa [Nat.add_assoc, Nat.add_comm 1 i] using hf⟩

theorem set2_length {α : Type} (g : List (List α)) (i j : Nat) (v : α) :
    (set2 g i j v).length = g.length :=
  List.length_set g i _

theorem set2_getD {α : Type} (g : List (List α)) (i' j : Nat) (v : α) (i : Nat) :
    (set2 g i' j v).getD i [] =
      if i = i' then (g.getD i' []).set j v else g.getD i [] := by
  unfold set2
  by_cases h : i = i'
  · subst h
    by_cases hlt : i < g.length
    · rw [if_pos rfl]
      exact getD_set_self g i _ [] hlt
    · rw [if_pos rfl, List.set_eq_of_length_le (Nat.le_of_not_lt hlt),
          getD_oob g i [] (Nat.le_of_not_lt hlt)]
      simp
  · rw [if_neg h]
    exact getD_set_ne g i' i _ [] (fun e => h e.symm)

theorem enum_eq_enumFrom_zero {α : Type} (l : List α) : l.enum = l.enumFrom 0 :=
  List.enum_eq_enumFrom

theorem getD_mem {α : Type} (l : List α) (i : Nat) (d : α) (h : i < l.length) :
    l.getD i d ∈ l := by
  rw [List.getD_eq_getElem l d h]
  exact List.getElem_mem h

theorem countP_add_length_filter_not {α : Type} (p : α → Bool) :
    ∀ l : List α, l.countP p + (l.filter (fun a => !(p a))).length = l.length := by
  intro l
  induction l with
  | nil => rfl
  | cons x t ih =>
      by_cases h : p x <;> simp [List.countP_cons, List.filter_cons, h] <;> omega

theorem rows_length_of_pointwise {α : Type} (b : List (List α)) (w : Nat)
    (h : ∀ i, i < b.length → (b.getD i []).length = w) :
    ∀ row ∈ b, row.length = w := by
  intro row hrow
  obtain ⟨⟨i, hi⟩, hget⟩ := List.mem_iff_get.mp hrow
  have : b.getD i [] = row := by
    rw [List.getD_eq_getElem b [] hi]
    exact hget
  rw [← this]
  exact h i hi

/-! ### Characterization of the collision check -/

theorem piece_collides_iff_aux (board : List (List Color32)) (p : Tetromino) :
    piece_collides board p = true ↔
      ∃ dy dx : Nat, dy < p.shape.length ∧ dx < (p.shape.getD dy []).length ∧
        (p.shape.getD dy []).getD dx false = true ∧
        (BOARD_WIDTH ≤ p.x + dx ∨ BOARD_HEIGHT ≤ p.y + dy ∨
          cellAt board (p.x + dx) (p.y + dy) ≠ Color32.transparent) := by
  unfold piece_collides
  rw [enum_eq_enumFrom_zero, any_enumFrom ([] : List Bool)]
  constructor
  · rintro ⟨dy, hdy, hf⟩
    simp only [Nat.zero_add] at hf
    rw [enum_eq_enumFrom_zero, any_enumFrom false] at hf
    obtain ⟨dx, hdx, hg⟩ := hf
    simp only [Nat.zero_add, Bool.and_eq_true, Bool.or_eq_true, decide_eq_true_eq] at hg
    exact ⟨dy, dx, hdy, hdx, hg.1, or_assoc.mp hg.2⟩
  · rintro ⟨dy, dx, hdy, hdx, hcell, hcond⟩
    refine ⟨dy, hdy, ?_⟩
    simp only [Nat.zero_add]
    rw [enum_eq_enumFrom_zero, any_enumFrom false]
    refine ⟨dx, hdx, ?_⟩
    simp only [Nat.zero_add, Bool.and_eq_true, Bool.or_eq_true, decide_eq_true_eq]
    exact ⟨hcell, or_assoc.mpr hcond⟩

theorem not_collides_inbounds (board : List (List Color32)) (p : Tetromino)
    (hnc : piece_collides board p = false) :
    ∀ dy dx : Nat, dy < p.shape.length → dx < (p.shape.getD dy []).length →
      (p.shape.getD dy []).getD dx false = true →
      p.y + dy < BOARD_HEIGHT ∧ p.x + dx < BOARD_WIDTH := by
  intro dy dx hdy hdx hcell
  by_contra hcon
  have : piece_collides board p = true := by
    apply (piece_collides_iff_aux board p).mpr
    refine ⟨dy, dx, hdy, hdx, hcell, ?_⟩
    rcases Nat.lt_or_ge (p.y + dy) BOARD_HEIGHT with hy | hy
    · rcases Nat.lt_or_ge (p.x + dx) BOARD_WIDTH with hx | hx
      · exact absurd ⟨hy, hx⟩ hcon
      · exact Or.inl hx
    · exact Or.inr (Or.inl hy)
  rw [hnc] at this
  exact Bool.false_ne_true this

/-! ### Branch lemmas for `move_piece` and friends -/

theorem move_piece_no_collision (s : TetrisGame) (dx dy : Int) (k : Nat)
    (h : piece_collides s.board
      { s.current_piece with x := ((s.current_piece.x : Int) + dx).toNat,
                             y := ((s.current_piece.y : Int) + dy).toNat } = false) :
    move_piece s dx dy k =
      { s with current_piece :=
        { s.current_piece with x := ((s.current_piece.x : Int) + dx).toNat,
                               y := ((s.current_piece.y : Int) + dy).toNat } } := by
  simp only [move_piece, h]
  rfl

theorem move_piece_collision_nonpos (s : TetrisGame) (dx dy : Int) (k : Nat)
    (h : piece_collides s.board
      { s.current_piece with x := ((s.current_piece.x : Int) + dx).toNat,
                             y := ((s.current_piece.y : Int) + dy).toNat } = true)
    (hdy : dy ≤ 0) :
    move_piece s dx dy k =
      { s with current_piece :=
        { s.current_piece with
          x := (((((s.current_piece.x : Int) + dx).toNat : Int)) - dx).toNat,
          y := (((((s.current_piece.y : Int) + dy).toNat : Int)) - dy).toNat } } := by
  simp only [move_piece, h]
  rw [if_pos trivial, if_neg (by omega : ¬ ((0 : Int) < dy))]

theorem move_piece_collision_pos (s : TetrisGame) (dx dy : Int) (k : Nat)
    (h : piece_collides s.board
      { s.current_piece with x := ((s.current_piece.x : Int) + dx).toNat,
                             y := ((s.current_piece.y : Int) + dy).toNat } = true)
    (hdy : 0 < dy) :
    move_piece s dx dy k =
      lock_piece
        { s with current_piece :=
          { s.current_piece with
            x := (((((s.current_piece.x : Int) + dx).toNat : Int)) - dx).toNat,
            y := (((((s.current_piece.y : Int) + dy).toNat : Int)) - dy).toNat } } k := by
  simp only [move_piece, h]
  rw [if_pos trivial, if_pos hdy]

theorem reverted_state_eq (s : TetrisGame) (dx dy : Int)
    (hx : 0 ≤ (s.current_piece.x : Int) + dx)
    (hy : 0 ≤ (s.current_piece.y : Int) + dy) :
    ({ s with current_piece :=
      { s.current_piece with
        x := (((((s.current_piece.x : Int) + dx).toNat : Int)) - dx).toNat,
        y := (((((s.current_piece.y : Int) + dy).toNat : Int)) - dy).toNat } } : TetrisGame)
    = s := by
  have hX : (((((s.current_piece.x : Int) + dx).toNat : Int)) - dx).toNat
      = s.current_piece.x := by omega
  have hY : (((((s.current_piece.y : Int) + dy).toNat : Int)) - dy).toNat
      = s.current_piece.y := by omega
  rw [hX, hY]

theorem moved_down_eq (p : Tetromino) :
    ({ p with x := ((p.x : Int) + 0).toNat, y := ((p.y : Int) + 1).toNat } : Tetromino)
      = { p with y := p.y + 1 } := by
  have hX : ((p.x : Int) + 0).toNat = p.x := by omega
  have hY : ((p.y : Int) + 1).toNat = p.y + 1 := by omega
  rw [hX, hY]

theorem move_collide_behavior (s : TetrisGame) (dx dy : Int) (k : Nat)
    (hx : 0 ≤ (s.current_piece.x : Int) + dx)
    (hy : 0 ≤ (s.current_piece.y : Int) + dy)
    (hcol : piece_collides s.board
      { s.current_piece with x := ((s.current_piece.x : Int) + dx).toNat,
                             y := ((s.current_piece.y : Int) + dy).toNat } = true) :
    (dy ≤ 0 → move_piece s dx dy k = s) ∧
    (0 < dy → move_piece s dx dy k = lock_piece s k) := by
  constructor
  · intro hdy
    rw [move_piece_collision_nonpos s dx dy k hcol hdy]
    exact reverted_state_eq s dx dy hx hy
  · intro hdy
    rw [move_piece_collision_pos s dx dy k hcol hdy]
    rw [reverted_state_eq s dx dy hx hy]

theorem spawn_piece_board (s : TetrisGame) (k : Nat) :
    (spawn_piece s k).board = s.board := by
  by_cases hg : s.game_over <;>
    by_cases hc : piece_collides s.board (generate_piece k) <;>
      simp [spawn_piece, hg, hc]

theorem spawn_piece_score (s : TetrisGame) (k : Nat) :
    (spawn_piece s k).score = s.score := by
  by_cases hg : s.game_over <;>
    by_cases hc : piece_collides s.board (generate_piece k) <;>
      simp [spawn_piece, hg, hc]

theorem rotate_piece_board (s : TetrisGame) :
    (rotate_piece s).board = s.board := by
  by_cases hc : piece_collides s.board
      { s.current_piece with shape := rotate_shape s.current_piece.shape } <;>
    simp [rotate_piece, hc]

theorem rotate_piece_score (s : TetrisGame) :
    (rotate_piece s).score = s.score := by
  by_cases hc : piece_collides s.board
      { s.current_piece with shape := rotate_shape s.current_piece.shape } <;>
    simp [rotate_piece, hc]

theorem clear_lines_board (s : TetrisGame) :
    (clear_lines s).board =
      List.replicate (s.board.countP row_full) (List.replicate BOARD_WIDTH Color32.transparent)
        ++ s.board.filter (fun row => !(row_full row)) := rfl

theorem clear_lines_score (s : TetrisGame) :
    (clear_lines s).score = s.score + s.board.countP row_full * 100 := rfl

theorem lock_piece_score_ge (s : TetrisGame) (k : Nat) :
    s.score ≤ (lock_piece s k).score := by
  unfold lock_piece
  rw [spawn_piece_score, clear_lines_score]
  exact Nat.le_add_right _ _

/-! ### Characterization of the write loop of `lock_piece` -/

theorem lk_inner_eq_set (ri px : Nat) (c : Color32) :
    ∀ (row : List Bool) (n : Nat) (b : List (List Color32)),
      (row.enumFrom n).foldl (fun b2 r => if r.2 then set2 b2 ri (px + r.1) c else b2) b
      = b.set ri ((row.enumFrom n).foldl
          (fun l r => if r.2 then l.set (px + r.1) c else l) (b.getD ri [])) := by
  intro row
  induction row with
  | nil =>
      intro n b
      show b = b.set ri (b.getD ri [])
      by_cases h : ri < b.length
      · rw [set_getD_self b ri [] h]
      · rw [List.set_eq_of_length_le (Nat.le_of_not_lt h)]
  | cons a t ih =>
      intro n b
      show (t.enumFrom (n + 1)).foldl _ (if a then set2 b ri (px + n) c else b)
            = b.set ri ((t.enumFrom (n + 1)).foldl _
                (if a then (b.getD ri []).set (px + n) c else (b.getD ri [])))
      by_cases ha : a
      · rw [if_pos ha, if_pos ha, ih (n + 1) (set2 b ri (px + n) c)]
        have h1 : (set2 b ri (px + n) c).getD ri [] = (b.getD ri []).set (px + n) c := by
          rw [set2_getD]
          exact if_pos rfl
        rw [h1]
        show (b.set ri ((b.getD ri []).set (px + n) c)).set ri _ = _
        rw [List.set_set]
      · rw [if_neg ha, if_neg ha, ih (n + 1) b]

theorem lk_row_length (px : Nat) (c : Color32) :
    ∀ (row : List Bool) (n : Nat) (l : List Color32),
      ((row.enumFrom n).foldl (fun l2 r => if r.2 then l2.set (px + r.1) c else l2) l).length
        = l.length := by
  intro row
  induction row with
  | nil => intro n l; rfl
  | cons a t ih =>
      intro n l
      show ((t.enumFrom (n + 1)).foldl _ (if a then l.set (px + n) c else l)).length = _
      rw [ih (n + 1)]
      by_cases ha : a
      · rw [if_pos ha, List.length_set]
      · rw [if_neg ha]

theorem lk_row_untouched (px : Nat) (c d : Color32) :
    ∀ (row : List Bool) (n : Nat) (l : List Color32) (j : Nat),
      (∀ i, i < row.length → row.getD i false = true → px + (n + i) ≠ j) →
      ((row.enumFrom n).foldl (fun l2 r => if r.2 then l2.set (px + r.1) c else l2) l).getD j d
        = l.getD j d := by
  intro row
  induction row with
  | nil => intro n l j _; rfl
  | cons a t ih =>
      intro n l j hne
      show ((t.enumFrom (n + 1)).foldl _ (if a then l.set (px + n) c else l)).getD j d = _
      have hrest : ∀ i, i < t.length → t.getD i false = true → px + ((n + 1) + i) ≠ j := by
        intro i hi hcell
        have := hne (i + 1) (by simpa using Nat.succ_lt_succ hi)
          (by simpa [List.getD_cons_succ] using hcell)
        intro hcontra
        exact this (by omega)
      rw [ih (n + 1) _ j hrest]
      by_cases ha : a
      · rw [if_pos ha]
        exact getD_set_ne l (px + n) j c d
          (hne 0 (by simp) (by simpa using ha) ∘ (by omega : px + n = j → px + (n + 0) = j))
      · rw [if_neg ha]

theorem lk_row_written (px : Nat) (c d : Color32) :
    ∀ (row : List Bool) (n : Nat) (l : List Color32) (i : Nat),
      i < row.length → row.getD i false = true → px + (n + i) < l.length →
      ((row.enumFrom n).foldl (fun l2 r => if r.2 then l2.set (px + r.1) c else l2) l).getD
          (px + (n + i)) d = c := by
  intro row
  induction row with
  | nil => intro n l i hi; simp at hi
  | cons a t ih =>
      intro n l i hi hcell hlt
      show ((t.enumFrom (n + 1)).foldl _ (if a then l.set (px + n) c else l)).getD _ d = c
      cases i with
      | zero =>
          have ha : a = true := by simpa using hcell
          rw [if_pos (by simp [ha])]
          have huntouched : ∀ i2, i2 < t.length → t.getD i2 false = true →
              px + ((n + 1) + i2) ≠ px + (n + 0) := by
            intro i2 _ _
            omega
          rw [lk_row_untouched px c d t (n + 1) _ _ huntouched]
          have : px + (n + 0) = px + n := by omega
          rw [this]
          exact getD_set_self l (px + n) c d (by omega)
      | succ i2 =>
          have hlen : (if a then l.set (px + n) c else l).length = l.length := by
            by_cases ha : a
            · rw [if_pos ha, List.length_set]
            · rw [if_neg ha]
          have heq : px + (n + (i2 + 1)) = px + ((n + 1) + i2) := by omega
          rw [heq]
          exact ih (n + 1) _ i2 (by simpa using Nat.lt_of_succ_lt_succ hi)
            (by simpa [List.getD_cons_succ] using hcell) (by omega)

theorem lk_outer_untouched (py px : Nat) (c : Color32) :
    ∀ (ss : List (List Bool)) (m : Nat) (b : List (List Color32)) (j : Nat),
      (∀ y, y < ss.length → py + (m + y) ≠ j) →
      ((ss.enumFrom m).foldl
          (fun bb q => q.2.enum.foldl
            (fun b2 r => if r.2 then set2 b2 (py + q.1) (px + r.1) c else b2) bb) b).getD j []
        = b.getD j [] := by
  intro ss
  induction ss with
  | nil => intro m b j _; rfl
  | cons r t ih =>
      intro m b j hne
      show ((t.enumFrom (m + 1)).foldl _
          (r.enum.foldl (fun b2 rr => if rr.2 then set2 b2 (py + m) (px + rr.1) c else b2) b)).getD
            j [] = b.getD j []
      have hrest : ∀ y, y < t.length → py + ((m + 1) + y) ≠ j := by
        intro y hy
        have := hne (y + 1) (by simpa using Nat.succ_lt_succ hy)
        intro hcontra
        exact this (by omega)
      rw [ih (m + 1) _ j hrest, enum_eq_enumFrom_zero, lk_inner_eq_set]
      exact getD_set_ne b (py + m) j _ []
        (hne 0 (by simp) ∘ (by omega : py + m = j → py + (m + 0) = j))

theorem lk_outer_written (py px : Nat) (c : Color32) :
    ∀ (ss : List (List Bool)) (m : Nat) (b : List (List Color32)) (y0 : Nat),
      y0 < ss.length →
      ((ss.enumFrom m).foldl
          (fun bb q => q.2.enum.foldl
            (fun b2 r => if r.2 then set2 b2 (py + q.1) (px + r.1) c else b2) bb) b).getD
          (py + (m + y0)) []
        = ((ss.getD y0 []).enumFrom 0).foldl
            (fun l r => if r.2 then l.set (px + r.1) c else l) (b.getD (py + (m + y0)) []) := by
  intro ss
  induction ss with
  | nil => intro m b y0 hy0; simp at hy0
  | cons r t ih =>
      intro m b y0 hy0
      show ((t.enumFrom (m + 1)).foldl _
          (r.enum.foldl (fun b2 rr => if rr.2 then set2 b2 (py + m) (px + rr.1) c else b2) b)).getD
            _ [] = _
      rw [enum_eq_enumFrom_zero, lk_inner_eq_set]
      cases y0 with
      | zero =>
          have huntouched : ∀ y, y < t.length → py + ((m + 1) + y) ≠ py + (m + 0) := by
            intro y _
            omega
          rw [lk_outer_untouched py px c t (m + 1) _ _ huntouched]
          by_cases hb : py + m < b.length
          · have h0 : py + (m + 0) = py + m := by omega
            rw [h0]
            exact getD_set_self b (py + m) _ [] hb
          · rw [List.set_eq_of_length_le (Nat.le_of_not_lt hb)]
            have h0 : py + (m + 0) = py + m := by omega
            rw [h0, getD_oob b (py + m) [] (Nat.le_of_not_lt hb)]
            have : (((r.enumFrom 0).foldl
                (fun l rr => if rr.2 then l.set (px + rr.1) c else l) ([] : List Color32))).length
                  = 0 := lk_row_length px c r 0 []
            exact (List.length_eq_zero.mp this).symm
      | succ y2 =>
          have heq : py + (m + (y2 + 1)) = py + ((m + 1) + y2) := by omega
          rw [heq, ih (m + 1) _ y2 (by simpa using Nat.lt_of_succ_lt_succ hy0)]
          have hne : py + m ≠ py + ((m + 1) + y2) := by omega
          rw [getD_set_ne b (py + m) _ _ [] hne]
          rfl

theorem lk_outer_length (py px : Nat) (c : Color32) :
    ∀ (ss : List (List Bool)) (m : Nat) (b : List (List Color32)),
      ((ss.enumFrom m).foldl
          (fun bb q => q.2.enum.foldl
            (fun b2 r => if r.2 then set2 b2 (py + q.1) (px + r.1) c else b2) bb) b).length
        = b.length := by
  intro ss
  induction ss with
  | nil => intro m b; rfl
  | cons r t ih =>
      intro m b
      show ((t.enumFrom (m + 1)).foldl _
          (r.enum.foldl (fun b2 rr => if rr.2 then set2 b2 (py + m) (px + rr.1) c else b2) b)).length
            = b.length
      rw [ih (m + 1), enum_eq_enumFrom_zero, lk_inner_eq_set, List.length_set]

theorem lk_outer_rowlen (py px : Nat) (c : Color32) :
    ∀ (ss : List (List Bool)) (m : Nat) (b : List (List Color32)) (i : Nat),
      (((ss.enumFrom m).foldl
          (fun bb q => q.2.enum.foldl
            (fun b2 r => if r.2 then set2 b2 (py + q.1) (px + r.1) c else b2) bb) b).getD i []).length
        = (b.getD i []).length := by
  intro ss
  induction ss with
  | nil => intro m b i; rfl
  | cons r t ih =>
      intro m b i
      show (((t.enumFrom (m + 1)).foldl _
          (r.enum.foldl (fun b2 rr => if rr.2 then set2 b2 (py + m) (px + rr.1) c else b2) b)).getD
            i []).length = _
      rw [ih (m + 1), enum_eq_enumFrom_zero, lk_inner_eq_set]
      by_cases hi : i = py + m
      · by_cases hb : py + m < b.length
        · rw [hi, getD_set_self b (py + m) _ [] hb, lk_row_length]
        · rw [List.set_eq_of_length_le (Nat.le_of_not_lt hb)]
      · rw [getD_set_ne b (py + m) i _ [] (fun e => hi e.symm)]

theorem lock_board_cell (board : List (List Color32)) (p : Tetromino) (dy0 dx0 : Nat)
    (hdy0 : dy0 < p.shape.length)
    (hcell : (p.shape.getD dy0 []).getD dx0 false = true)
    (hcol : p.x + dx0 < (board.getD (p.y + dy0) []).length) :
    cellAt (lock_board board p) (p.x + dx0) (p.y + dy0) = p.color := by
  have hdx0 : dx0 < (p.shape.getD dy0 []).length := by
    by_contra hcon
    rw [getD_oob _ dx0 false (Nat.le_of_not_lt hcon)] at hcell
    exact Bool.false_ne_true hcell
  unfold cellAt lock_board
  rw [enum_eq_enumFrom_zero]
  have hw := lk_outer_written p.y p.x p.color p.shape 0 board dy0 hdy0
  rw [Nat.zero_add] at hw
  rw [hw]
  have hr := lk_row_written p.x p.color Color32.transparent (p.shape.getD dy0 []) 0
    (board.getD (p.y + dy0) []) dx0 hdx0 hcell (by omega)
  rw [Nat.zero_add] at hr
  exact hr

/-! ### Characterization of the rotation loop -/

theorem getD_replicate {α : Type} (a d : α) :
    ∀ (n i : Nat), i < n → (List.replicate n a).getD i d = a := by
  intro n
  induction n with
  | zero => intro i h; simp at h
  | succ n ih =>
      intro i h
      cases i with
      | zero => rfl
      | succ i => exact ih i (Nat.lt_of_succ_lt_succ h)

theorem rot_inner_length (t : Nat) :
    ∀ (row : List Bool) (n : Nat) (acc : List (List Bool)),
      ((row.enumFrom n).foldl (fun a q => set2 a q.1 t q.2) acc).length = acc.length := by
  intro row
  induction row with
  | nil => intro n acc; rfl
  | cons a tt ih =>
      intro n acc
      show ((tt.enumFrom (n + 1)).foldl _ (set2 acc n t a)).length = acc.length
      rw [ih (n + 1), set2_length]

theorem rot_inner_getD (t : Nat) :
    ∀ (row : List Bool) (n : Nat) (acc : List (List Bool)) (i : Nat),
      ((row.enumFrom n).foldl (fun a q => set2 a q.1 t q.2) acc).getD i []
      = if n ≤ i ∧ i < n + row.length
        then (acc.getD i []).set t (row.getD (i - n) false)
        else acc.getD i [] := by
  intro row
  induction row with
  | nil =>
      intro n acc i
      rw [if_neg (by simp only [List.length_nil]; omega : ¬ (n ≤ i ∧ i < n + List.length ([] : List Bool)))]
      rfl
  | cons a tt ih =>
      intro n acc i
      show ((tt.enumFrom (n + 1)).foldl _ (set2 acc n t a)).getD i [] = _
      rw [ih (n + 1) (set2 acc n t a) i, set2_getD]
      simp only [List.length_cons]
      by_cases hin : i = n
      · subst hin
        rw [if_neg (by omega : ¬ (i + 1 ≤ i ∧ i < i + 1 + tt.length)), if_pos rfl,
          if_pos (by omega : i ≤ i ∧ i < i + (tt.length + 1)), Nat.sub_self,
          List.getD_cons_zero]
      · rw [if_neg hin]
        by_cases hc : n + 1 ≤ i ∧ i < n + 1 + tt.length
        · rw [if_pos hc, if_pos (by omega : n ≤ i ∧ i < n + (tt.length + 1))]
          congr 1
          have hsub : i - n = (i - (n + 1)) + 1 := by omega
          rw [hsub, List.getD_cons_succ]
        · rw [if_neg hc, if_neg (by omega : ¬ (n ≤ i ∧ i < n + (tt.length + 1)))]

theorem rot_outer_length (rows : Nat) :
    ∀ (ss : List (List Bool)) (m : Nat) (acc : List (List Bool)),
      ((ss.enumFrom m).foldl
          (fun a q => q.2.enum.foldl (fun a2 r => set2 a2 r.1 (rows - 1 - q.1) r.2) a)
          acc).length = acc.length := by
  intro ss
  induction ss with
  | nil => intro m acc; rfl
  | cons r tt ih =>
      intro m acc
      show ((tt.enumFrom (m + 1)).foldl _
          (r.enum.foldl (fun a2 q => set2 a2 q.1 (rows - 1 - m) q.2) acc)).length = acc.length
      rw [ih (m + 1), enum_eq_enumFrom_zero, rot_inner_length]

theorem rot_outer_rowlen (rows : Nat) :
    ∀ (ss : List (List Bool)) (m : Nat) (acc : List (List Bool)) (i : Nat),
      (((ss.enumFrom m).foldl
          (fun a q => q.2.enum.foldl (fun a2 r => set2 a2 r.1 (rows - 1 - q.1) r.2) a)
          acc).getD i []).length = (acc.getD i []).length := by
  intro ss
  induction ss with
  | nil => intro m acc i; rfl
  | cons r tt ih =>
      intro m acc i
      show (((tt.enumFrom (m + 1)).foldl _
          (r.enum.foldl (fun a2 q => set2 a2 q.1 (rows - 1 - m) q.2) acc)).getD i []).length = _
      rw [ih (m + 1), enum_eq_enumFrom_zero, rot_inner_getD]
      by_cases hc : 0 ≤ i ∧ i < 0 + r.length
      · rw [if_pos hc, List.length_set]
      · rw [if_neg hc]

theorem rot_outer_getD (rows : Nat) :
    ∀ (ss : List (List Bool)) (m : Nat) (acc : List (List Bool)) (i j : Nat),
      m + ss.length ≤ rows →
      (∀ i2, i2 < acc.length → (acc.getD i2 []).length = rows) →
      i < acc.length → j < rows →
      (((ss.enumFrom m).foldl
          (fun a q => q.2.enum.foldl (fun a2 r => set2 a2 r.1 (rows - 1 - q.1) r.2) a)
          acc).getD i []).getD j false
      = if m ≤ rows - 1 - j ∧ rows - 1 - j < m + ss.length ∧
            i < (ss.getD (rows - 1 - j - m) []).length
        then (ss.getD (rows - 1 - j - m) []).getD i false
        else (acc.getD i []).getD j false := by
  intro ss
  induction ss with
  | nil =>
      intro m acc i j hm hrows hi hj
      rw [if_neg (by simp only [List.length_nil]; omega :
        ¬ (m ≤ rows - 1 - j ∧ rows - 1 - j < m + List.length ([] : List (List Bool)) ∧
            i < (List.getD ([] : List (List Bool)) (rows - 1 - j - m) []).length))]
      rfl
  | cons r tt ih =>
      intro m acc i j hm hrows hi hj
      simp only [List.length_cons] at hm
      show (((tt.enumFrom (m + 1)).foldl _
          (r.enum.foldl (fun a2 q => set2 a2 q.1 (rows - 1 - m) q.2) acc)).getD i []).getD
            j false = _
      have hlen1 : (r.enum.foldl (fun a2 q => set2 a2 q.1 (rows - 1 - m) q.2) acc).length
          = acc.length := by
        rw [enum_eq_enumFrom_zero, rot_inner_length]
      have hrows1 : ∀ i2, i2 < (r.enum.foldl (fun a2 q => set2 a2 q.1 (rows - 1 - m) q.2)
          acc).length →
          ((r.enum.foldl (fun a2 q => set2 a2 q.1 (rows - 1 - m) q.2) acc).getD i2 []).length
            = rows := by
        intro i2 hi2
        rw [hlen1] at hi2
        rw [enum_eq_enumFrom_zero, rot_inner_getD]
        by_cases hc : 0 ≤ i2 ∧ i2 < 0 + r.length
        · rw [if_pos hc, List.length_set]
          exact hrows i2 hi2
        · rw [if_neg hc]
          exact hrows i2 hi2
      have hacc1 : ((r.enum.foldl (fun a2 q => set2 a2 q.1 (rows - 1 - m) q.2) acc).getD i []).getD
          j false = if i < r.length ∧ j = rows - 1 - m
            then r.getD i false
            else (acc.getD i []).getD j false := by
        rw [enum_eq_enumFrom_zero, rot_inner_getD]
        by_cases hir : i < r.length
        · rw [if_pos (by omega : 0 ≤ i ∧ i < 0 + r.length), Nat.sub_zero]
          by_cases hjt : j = rows - 1 - m
          · rw [if_pos ⟨hir, hjt⟩, hjt]
            exact getD_set_self (acc.getD i []) (rows - 1 - m) (r.getD i false) false
              (by rw [hrows i hi]; omega)
          · rw [if_neg (by tauto : ¬ (i < r.length ∧ j = rows - 1 - m))]
            exact getD_set_ne (acc.getD i []) (rows - 1 - m) j (r.getD i false) false
              (fun e => hjt e.symm)
        · rw [if_neg (by omega : ¬ (0 ≤ i ∧ i < 0 + r.length)),
            if_neg (by tauto : ¬ (i < r.length ∧ j = rows - 1 - m))]
      rw [ih (m + 1) _ i j (by omega) hrows1 (by rw [hlen1]; exact hi) hj]
      by_cases hy : rows - 1 - j = m
      · rw [if_neg (by omega :
          ¬ (m + 1 ≤ rows - 1 - j ∧ rows - 1 - j < m + 1 + tt.length ∧
              i < (tt.getD (rows - 1 - j - (m + 1)) []).length)), hacc1]
        have hjm : j = rows - 1 - m := by omega
        have hidx : rows - 1 - j - m = 0 := by omega
        rw [hidx, List.getD_cons_zero, List.length_cons]
        by_cases hir : i < r.length
        · rw [if_pos ⟨hir, hjm⟩, if_pos (by omega : m ≤ rows - 1 - j ∧
            rows - 1 - j < m + (tt.length + 1) ∧ i < r.length)]
        · rw [if_neg (by tauto : ¬ (i < r.length ∧ j = rows - 1 - m)),
            if_neg (by omega : ¬ (m ≤ rows - 1 - j ∧
              rows - 1 - j < m + (tt.length + 1) ∧ i < r.length))]
      · by_cases hy2 : m + 1 ≤ rows - 1 - j
        · have hidx : rows - 1 - j - m = (rows - 1 - j - (m + 1)) + 1 := by omega
          rw [hidx, List.getD_cons_succ, List.length_cons]
          by_cases hc : rows - 1 - j < m + 1 + tt.length ∧
              i < (tt.getD (rows - 1 - j - (m + 1)) []).length
          · rw [if_pos ⟨hy2, hc.1, hc.2⟩,
              if_pos (by omega : m ≤ rows - 1 - j ∧
                rows - 1 - j < m + (tt.length + 1) ∧
                i < (tt.getD (rows - 1 - j - (m + 1)) []).length)]
          · rw [if_neg (by tauto : ¬ (m + 1 ≤ rows - 1 - j ∧
              rows - 1 - j < m + 1 + tt.length ∧
              i < (tt.getD (rows - 1 - j - (m + 1)) []).length))]
            rw [if_neg (by omega : ¬ (m ≤ rows - 1 - j ∧
              rows - 1 - j < m + (tt.length + 1) ∧
              i < (tt.getD (rows - 1 - j - (m + 1)) []).length)), hacc1]
            have hjm : j ≠ rows - 1 - m := by omega
            rw [if_neg (by tauto : ¬ (i < r.length ∧ j = rows - 1 - m))]
        · rw [if_neg (by omega :
            ¬ (m + 1 ≤ rows - 1 - j ∧ rows - 1 - j < m + 1 + tt.length ∧
                i < (tt.getD (rows - 1 - j - (m + 1)) []).length))]
          have hylt : rows - 1 - j < m := by omega
          rw [if_neg (by simp only [List.length_cons]; omega :
            ¬ (m ≤ rows - 1 - j ∧ rows - 1 - j < m + (r :: tt).length ∧
              i < ((r :: tt).getD (rows - 1 - j - m) []).length)), hacc1]
          have hjm : j ≠ rows - 1 - m := by omega
          rw [if_neg (by tauto : ¬ (i < r.length ∧ j = rows - 1 - m))]

theorem rotate_shape_spec (shape : List (List Bool)) (R C : Nat)
    (hR : shape.length = R) (hRpos : 0 < R)
    (hrect : ∀ row ∈ shape, row.length = C) :
    (rotate_shape shape).length = C ∧
    (∀ row ∈ rotate_shape shape, row.length = R) ∧
    (∀ i j, i < C → j < R →
      ((rotate_shape shape).getD i []).getD j false
        = (shape.getD (R - 1 - j) []).getD i false) := by
  have hhead : (shape.headD []).length = C := by
    cases shape with
    | nil => rw [← hR] at hRpos; simp at hRpos
    | cons r0 rest => exact hrect r0 (by simp)
  have hinit_len : (List.replicate (shape.headD []).length
      (List.replicate shape.length false)).length = C := by
    rw [List.length_replicate, hhead]
  have hinit_rows : ∀ i2, i2 < (List.replicate (shape.headD []).length
      (List.replicate shape.length false)).length →
      ((List.replicate (shape.headD []).length
        (List.replicate shape.length false)).getD i2 []).length = shape.length := by
    intro i2 hi2
    rw [List.length_replicate] at hi2
    rw [getD_replicate _ [] _ i2 hi2, List.length_replicate]
  refine ⟨?_, ?_, ?_⟩
  · unfold rotate_shape
    rw [enum_eq_enumFrom_zero, rot_outer_length, hinit_len]
  · apply rows_length_of_pointwise
    intro i hi
    unfold rotate_shape at hi ⊢
    rw [enum_eq_enumFrom_zero, rot_outer_length, hinit_len] at hi
    rw [enum_eq_enumFrom_zero, rot_outer_rowlen]
    rw [hinit_rows i (by rw [hinit_len]; exact hi), hR]
  · intro i j hi hj
    unfold rotate_shape
    rw [enum_eq_enumFrom_zero,
      rot_outer_getD shape.length shape 0 _ i j (by omega) hinit_rows
        (by rw [hinit_len]; exact hi) (by omega)]
    have hvalid : shape.length - 1 - j - 0 < shape.length := by omega
    have hrowC : (shape.getD (shape.length - 1 - j - 0) []).length = C :=
      hrect _ (getD_mem shape _ [] hvalid)
    rw [if_pos (by
      refine ⟨Nat.zero_le _, by omega, ?_⟩
      rw [hrowC]
      exact hi)]
    rw [Nat.sub_zero, hR]

theorem rotate_shape_four (shape : List (List Bool)) (R C : Nat)
    (hR : shape.length = R) (hRpos : 0 < R) (hCpos : 0 < C)
    (hrect : ∀ row ∈ shape, row.length = C) :
    rotate_shape (rotate_shape (rotate_shape (rotate_shape shape))) = shape := by
  obtain ⟨hlen1, hrows1, hent1⟩ := rotate_shape_spec shape R C hR hRpos hrect
  obtain ⟨hlen2, hrows2, hent2⟩ := rotate_shape_spec (rotate_shape shape) C R hlen1 hCpos hrows1
  obtain ⟨hlen3, hrows3, hent3⟩ :=
    rotate_shape_spec (rotate_shape (rotate_shape shape)) R C hlen2 hRpos hrows2
  obtain ⟨hlen4, hrows4, hent4⟩ :=
    rotate_shape_spec (rotate_shape (rotate_shape (rotate_shape shape))) C R hlen3 hCpos hrows3
  apply list_ext_getD ([] : List Bool)
  · rw [hlen4, hR]
  · intro i hilen
    rw [hlen4] at hilen
    apply list_ext_getD false
    · rw [hrows4 _ (getD_mem _ i [] (by rw [hlen4]; exact hilen)),
        hrect _ (getD_mem shape i [] (by omega))]
    · intro j hjlen
      rw [hrows4 _ (getD_mem _ i [] (by rw [hlen4]; exact hilen))] at hjlen
      rw [hent4 i j hilen hjlen]
      have hc1j : C - 1 - j < C := by omega
      rw [hent3 (C - 1 - j) i hc1j hilen]
      have hr1i : R - 1 - i < R := by omega
      rw [hent2 (R - 1 - i) (C - 1 - j) hr1i hc1j]
      have e1 : C - 1 - (C - 1 - j) = j := by omega
      rw [e1]
      rw [hent1 j (R - 1 - i) hjlen hr1i]
      have e2 : R - 1 - (R - 1 - i) = i := by omega
      rw [e2]

theorem lock_board_boardWF (board : List (List Color32)) (p : Tetromino)
    (hwf : boardWF board) : boardWF (lock_board board p) := by
  obtain ⟨hlen, hrows⟩ := hwf
  constructor
  · unfold lock_board
    rw [enum_eq_enumFrom_zero, lk_outer_length]
    exact hlen
  · apply rows_length_of_pointwise
    intro i hi
    unfold lock_board
    rw [enum_eq_enumFrom_zero, lk_outer_rowlen]
    unfold lock_board at hi
    rw [enum_eq_enumFrom_zero, lk_outer_length] at hi
    exact hrows (board.getD i []) (getD_mem board i [] hi)

/-! ### Preservation of the board shape and further branch lemmas -/

theorem clear_lines_boardWF (s : TetrisGame) (hwf : boardWF s.board) :
    boardWF (clear_lines s).board := by
  obtain ⟨hlen, hrows⟩ := hwf
  constructor
  · rw [clear_lines_board, List.length_append, List.length_replicate,
      List.countP_eq_length_filter]
    have h := countP_add_length_filter_not row_full s.board
    rw [List.countP_eq_length_filter] at h
    omega
  · intro row hrow
    rw [clear_lines_board] at hrow
    rcases List.mem_append.mp hrow with hin | hin
    · rw [List.eq_of_mem_replicate hin, List.length_replicate]
    · exact hrows row (List.mem_of_mem_filter hin)

theorem lock_piece_boardWF (s : TetrisGame) (k : Nat) (hwf : boardWF s.board) :
    boardWF (lock_piece s k).board := by
  unfold lock_piece
  rw [spawn_piece_board]
  exact clear_lines_boardWF _ (lock_board_boardWF s.board s.current_piece hwf)

theorem move_piece_boardWF (s : TetrisGame) (dx dy : Int) (k : Nat)
    (hwf : boardWF s.board) : boardWF (move_piece s dx dy k).board := by
  cases hcol : piece_collides s.board
      { s.current_piece with x := ((s.current_piece.x : Int) + dx).toNat,
                             y := ((s.current_piece.y : Int) + dy).toNat } with
  | false => rw [move_piece_no_collision s dx dy k hcol]; exact hwf
  | true =>
      by_cases hdy : 0 < dy
      · rw [move_piece_collision_pos s dx dy k hcol hdy]
        exact lock_piece_boardWF _ k hwf
      · rw [move_piece_collision_nonpos s dx dy k hcol (by omega)]
        exact hwf

theorem update_boardWF (s : TetrisGame) (now k : Nat) (hwf : boardWF s.board) :
    boardWF (update s now k).board := by
  unfold update
  by_cases ht : s.update_interval ≤ now - s.last_update
  · rw [if_pos ht]
    cases hg : s.game_over with
    | false =>
        simp only [hg, Bool.not_false, if_true]
        exact move_piece_boardWF s 0 1 k hwf
    | true =>
        simp only [hg, Bool.not_true, if_false]
        exact hwf
  · rw [if_neg ht]
    exact hwf

theorem rotate_piece_boardWF (s : TetrisGame) (hwf : boardWF s.board) :
    boardWF (rotate_piece s).board := by
  rw [rotate_piece_board]
  exact hwf

theorem spawn_piece_boardWF (s : TetrisGame) (k : Nat) (hwf : boardWF s.board) :
    boardWF (spawn_piece s k).board := by
  rw [spawn_piece_board]
  exact hwf

theorem move_piece_score_ge (s : TetrisGame) (dx dy : Int) (k : Nat) :
    s.score ≤ (move_piece s dx dy k).score := by
  cases hcol : piece_collides s.board
      { s.current_piece with x := ((s.current_piece.x : Int) + dx).toNat,
                             y := ((s.current_piece.y : Int) + dy).toNat } with
  | false => rw [move_piece_no_collision s dx dy k hcol]
  | true =>
      by_cases hdy : 0 < dy
      · rw [move_piece_collision_pos s dx dy k hcol hdy]
        exact lock_piece_score_ge
          { s with current_piece :=
            { s.current_piece with
              x := (((((s.current_piece.x : Int) + dx).toNat : Int)) - dx).toNat,
              y := (((((s.current_piece.y : Int) + dy).toNat : Int)) - dy).toNat } } k
      · rw [move_piece_collision_nonpos s dx dy k hcol (by omega)]

theorem update_score_ge (s : TetrisGame) (now k : Nat) :
    s.score ≤ (update s now k).score := by
  unfold update
  by_cases ht : s.update_interval ≤ now - s.last_update
  · rw [if_pos ht]
    cases hg : s.game_over with
    | false =>
        simp only [hg, Bool.not_false, if_true]
        exact move_piece_score_ge s 0 1 k
    | true => simp only [hg, Bool.not_true, if_false]; exact Nat.le_refl _
  · rw [if_neg ht]

theorem spawn_piece_noop (s : TetrisGame) (k : Nat) (h : s.game_over = true) :
    spawn_piece s k = s := by
  simp [spawn_piece, h]

theorem spawn_piece_run (s : TetrisGame) (k : Nat) (h : s.game_over = false) :
    (spawn_piece s k).current_piece = generate_piece k ∧
    ((spawn_piece s k).game_over = true ↔
      piece_collides s.board (generate_piece k) = true) := by
  cases hc : piece_collides s.board (generate_piece k) <;>
    simp [spawn_piece, h, hc]

theorem update_noop_of_over (s : TetrisGame) (now k : Nat) (h : s.game_over = true) :
    update s now k = s := by
  unfold update
  simp [h]

theorem rotate_piece_no_collision (s : TetrisGame)
    (h : piece_collides s.board
      { s.current_piece with shape := rotate_shape s.current_piece.shape } = false) :
    rotate_piece s =
      { s with current_piece :=
        { s.current_piece with shape := rotate_shape s.current_piece.shape } } := by
  simp only [rotate_piece, h]
  rfl

/-! ### The claims -/

/-- Claim C1: `clear_lines` removes exactly the rows in which every cell is
non-empty (preserving the relative order of the remaining rows), inserts an
equal number of fully empty rows at the top so that the row count stays
`BOARD_HEIGHT`, and increases the score by exactly 100 times the number of
removed rows. -/
theorem c1_clear_lines_spec (s : TetrisGame) (r : List Color32)
    (hlen : s.board.length = BOARD_HEIGHT) :
    (clear_lines s).board.length = BOARD_HEIGHT ∧
    (clear_lines s).board =
      List.replicate (s.board.countP row_full)
          (List.replicate BOARD_WIDTH Color32.transparent)
        ++ s.board.filter (fun row => !(row_full row)) ∧
    (clear_lines s).score = s.score + 100 * s.board.countP row_full ∧
    (row_full r = true ↔ ∀ c ∈ r, c ≠ Color32.transparent) := by
  refine ⟨?_, clear_lines_board s, ?_, ?_⟩
  · rw [clear_lines_board, List.length_append, List.length_replicate,
      List.countP_eq_length_filter]
    have h := countP_add_length_filter_not row_full s.board
    rw [List.countP_eq_length_filter] at h
    omega
  · rw [clear_lines_score]
    omega
  · simp [row_full, List.all_eq_true]

/-- Claim C1 witness: the spec evaluated on a board whose top row is full. -/
theorem c1_clear_lines_spec_witness :
    (clear_lines sClear).board.length = BOARD_HEIGHT ∧
    (clear_lines sClear).board =
      List.replicate (sClear.board.countP row_full)
          (List.replicate BOARD_WIDTH Color32.transparent)
        ++ sClear.board.filter (fun row => !(row_full row)) ∧
    (clear_lines sClear).score = sClear.score + 100 * sClear.board.countP row_full ∧
    (row_full [Color32.red] = true ↔ ∀ c ∈ [Color32.red], c ≠ Color32.transparent) :=
  c1_clear_lines_spec sClear [Color32.red] (by decide)

/-- Claim C2: the collision check returns true iff some occupied mask cell
maps outside the board bounds or onto a non-empty board cell. -/
theorem c2_piece_collides_iff (board : List (List Color32)) (p : Tetromino) :
    piece_collides board p = true ↔
      ∃ dy dx : Nat, dy < p.shape.length ∧ dx < (p.shape.getD dy []).length ∧
        (p.shape.getD dy []).getD dx false = true ∧
        (BOARD_WIDTH ≤ p.x + dx ∨ BOARD_HEIGHT ≤ p.y + dy ∨
          cellAt board (p.x + dx) (p.y + dy) ≠ Color32.transparent) :=
  piece_collides_iff_aux board p

/-- Claim C2 witness: the characterization applied to a piece sitting on an
occupied board cell. -/
theorem c2_piece_collides_iff_witness :
    piece_collides sOver.board sOver.current_piece = true :=
  (c2_piece_collides_iff sOver.board sOver.current_piece).mpr
    ⟨0, 0, by decide, by decide, by decide, by decide⟩

/-- Claim C3 counterexample: with the piece at the left wall over an occupied
cell, the clamped left move collides, and the revert adds the offset back so
the anchor ends at 1 rather than its pre-move value 0. -/
theorem c3_revert_counterexample :
    piece_collides sCorner.board
      { sCorner.current_piece with
        x := ((sCorner.current_piece.x : Int) + (-1)).toNat,
        y := ((sCorner.current_piece.y : Int) + 0).toNat } = true ∧
    sCorner.current_piece.x = 0 ∧
    (move_piece sCorner (-1) 0 0).current_piece.x = 1 := by decide

/-- Claim C3 (amended): when no zero-clamping occurs on the forward move
(both tentative coordinates stay non-negative), a colliding move is reverted
to exactly the pre-move anchor: a sideways or upward move leaves the state
unchanged, and a downward move locks the piece at its exact pre-move
position.  With clamping the revert can move the anchor instead. -/
theorem c3_revert_amended (s : TetrisGame) (dx dy : Int) (k : Nat)
    (hx : 0 ≤ (s.current_piece.x : Int) + dx)
    (hy : 0 ≤ (s.current_piece.y : Int) + dy)
    (hcol : piece_collides s.board
      { s.current_piece with x := ((s.current_piece.x : Int) + dx).toNat,
                             y := ((s.current_piece.y : Int) + dy).toNat } = true) :
    (dy ≤ 0 → move_piece s dx dy k = s) ∧
    (0 < dy → move_piece s dx dy k = lock_piece s k) :=
  move_collide_behavior s dx dy k hx hy hcol

/-- Claim C3 witness: a right move into the wall reverts exactly, and a
downward move into the floor locks from the exact pre-move state. -/
theorem c3_revert_amended_witness :
    move_piece sRight 1 0 0 = sRight ∧
    move_piece sFloorA 0 1 0 = lock_piece sFloorA 0 :=
  ⟨(c3_revert_amended sRight 1 0 0 (by decide) (by decide) (by decide)).1 (by decide),
   (c3_revert_amended sFloorA 0 1 0 (by decide) (by decide) (by decide)).2 (by decide)⟩

/-- Claim C4: when the active piece does not collide but would collide one row
down, `move_piece(0, 1)` locks exactly once: the piece is written into the
board at its pre-move (non-colliding) anchor, then lines are cleared, then a
spawn occurs, after which a fresh active piece is present or the game-over
flag is set. -/
theorem c4_lock_on_down_collision (s : TetrisGame) (k dy0 dx0 : Nat)
    (hnc : piece_collides s.board s.current_piece = false)
    (hcol : piece_collides s.board
      { s.current_piece with y := s.current_piece.y + 1 } = true) :
    move_piece s 0 1 k = lock_piece s k ∧
    lock_piece s k =
      spawn_piece (clear_lines { s with board := lock_board s.board s.current_piece }) k ∧
    (boardWF s.board →
      dy0 < s.current_piece.shape.length →
      (s.current_piece.shape.getD dy0 []).getD dx0 false = true →
      cellAt (lock_board s.board s.current_piece)
        (s.current_piece.x + dx0) (s.current_piece.y + dy0) = s.current_piece.color) ∧
    ((move_piece s 0 1 k).game_over = true ∨
      (move_piece s 0 1 k).current_piece = generate_piece k) := by
  have hcol2 : piece_collides s.board
      { s.current_piece with x := ((s.current_piece.x : Int) + 0).toNat,
                             y := ((s.current_piece.y : Int) + 1).toNat } = true := by
    rw [moved_down_eq]
    exact hcol
  have hmove : move_piece s 0 1 k = lock_piece s k :=
    (move_collide_behavior s 0 1 k (by omega) (by omega) hcol2).2 (by omega)
  refine ⟨hmove, rfl, ?_, ?_⟩
  · intro hwf hdy0 hcell
    have hdx0len : dx0 < (s.current_piece.shape.getD dy0 []).length := by
      by_contra hcon
      rw [getD_oob _ dx0 false (Nat.le_of_not_lt hcon)] at hcell
      exact Bool.false_ne_true hcell
    have hbounds := not_collides_inbounds s.board s.current_piece hnc dy0 dx0 hdy0 hdx0len hcell
    apply lock_board_cell s.board s.current_piece dy0 dx0 hdy0 hcell
    have hrowlen : (s.board.getD (s.current_piece.y + dy0) []).length = BOARD_WIDTH :=
      hwf.2 _ (getD_mem s.board _ [] (by rw [hwf.1]; exact hbounds.1))
    rw [hrowlen]
    exact hbounds.2
  · rw [hmove]
    cases hg : s.game_over with
    | true =>
        left
        unfold lock_piece
        rw [spawn_piece_noop _ k
          (show (clear_lines { s with board := lock_board s.board s.current_piece }).game_over
            = true from hg)]
        exact hg
    | false =>
        right
        unfold lock_piece
        exact (spawn_piece_run _ k
          (show (clear_lines { s with board := lock_board s.board s.current_piece }).game_over
            = false from hg)).1

/-- Claim C4 witness: a one-cell piece resting on the floor of an empty board
locks on a down move. -/
theorem c4_lock_on_down_collision_witness :
    move_piece sFloorB 0 1 0 = lock_piece sFloorB 0 ∧
    lock_piece sFloorB 0 =
      spawn_piece
        (clear_lines { sFloorB with board := lock_board sFloorB.board sFloorB.current_piece }) 0 ∧
    cellAt (lock_board sFloorB.board sFloorB.current_piece)
      (sFloorB.current_piece.x + 0) (sFloorB.current_piece.y + 0)
        = sFloorB.current_piece.color ∧
    ((move_piece sFloorB 0 1 0).game_over = true ∨
      (move_piece sFloorB 0 1 0).current_piece = generate_piece 0) := by
  have h := c4_lock_on_down_collision sFloorB 0 0 0 (by decide) (by decide)
  exact ⟨h.1, h.2.1, h.2.2.1 (by decide) (by decide) (by decide), h.2.2.2⟩

/-- Claim C5 counterexample: in the game-over state `sOver`, a direct
`move_piece(0, 1)` call still locks the stuck piece and mutates the board
(the two full top rows are cleared), so the board is not frozen against
move calls after game over. -/
theorem c5_game_over_counterexample :
    sOver.game_over = true ∧ (move_piece sOver 0 1 0).board ≠ sOver.board := by decide

/-- Claim C5 (amended): once the game-over flag is true, the gravity tick
`update` and `spawn_piece` leave the entire game state unchanged; direct
`move_piece` calls are not guarded by the flag and can still mutate the
board (see the counterexample). -/
theorem c5_game_over_amended (s : TetrisGame) (now k : Nat) (h : s.game_over = true) :
    update s now k = s ∧ spawn_piece s k = s :=
  ⟨update_noop_of_over s now k h, spawn_piece_noop s k h⟩

/-- Claim C5 witness: the amended claim evaluated on the game-over state. -/
theorem c5_game_over_amended_witness :
    update sOver 0 0 = sOver ∧ spawn_piece sOver 0 = sOver :=
  c5_game_over_amended sOver 0 0 (by decide)

/-- Claim C6: four successive `rotate_piece` calls on a rectangular mask whose
intermediate rotated positions never collide restore the game state (mask and
anchor) exactly; a single rotation of an R-by-C mask yields the C-by-R mask
whose cell (x, R-1-y) equals the old cell (y, x). -/
theorem c6_rotate_four (s : TetrisGame) (R C yrot xrot : Nat)
    (hR : s.current_piece.shape.length = R) (hRpos : 0 < R) (hCpos : 0 < C)
    (hrect : ∀ row ∈ s.current_piece.shape, row.length = C)
    (hyrot : yrot < R) (hxrot : xrot < C)
    (h1 : piece_collides s.board
      { s.current_piece with shape := rotate_shape s.current_piece.shape } = false)
    (h2 : piece_collides s.board
      { s.current_piece with
        shape := rotate_shape (rotate_shape s.current_piece.shape) } = false)
    (h3 : piece_collides s.board
      { s.current_piece with
        shape := rotate_shape (rotate_shape (rotate_shape s.current_piece.shape)) } = false)
    (h4 : piece_collides s.board
      { s.current_piece with
        shape := rotate_shape (rotate_shape (rotate_shape
          (rotate_shape s.current_piece.shape))) } = false) :
    rotate_piece (rotate_piece (rotate_piece (rotate_piece s))) = s ∧
    ((rotate_shape s.current_piece.shape).getD xrot []).getD (R - 1 - yrot) false
      = (s.current_piece.shape.getD yrot []).getD xrot false := by
  constructor
  · have e1 : rotate_piece s =
        { s with current_piece :=
          { s.current_piece with shape := rotate_shape s.current_piece.shape } } :=
      rotate_piece_no_collision s h1
    have e2 : rotate_piece (rotate_piece s) =
        { s with current_piece :=
          { s.current_piece with
            shape := rotate_shape (rotate_shape s.current_piece.shape) } } := by
      rw [e1]
      exact rotate_piece_no_collision _ h2
    have e3 : rotate_piece (rotate_piece (rotate_piece s)) =
        { s with current_piece :=
          { s.current_piece with
            shape := rotate_shape (rotate_shape (rotate_shape s.current_piece.shape)) } } := by
      rw [e2]
      exact rotate_piece_no_collision _ h3
    have e4 : rotate_piece (rotate_piece (rotate_piece (rotate_piece s))) =
        { s with current_piece :=
          { s.current_piece with
            shape := rotate_shape (rotate_shape (rotate_shape
              (rotate_shape s.current_piece.shape))) } } := by
      rw [e3]
      exact rotate_piece_no_collision _ h4
    rw [e4, rotate_shape_four s.current_piece.shape R C hR hRpos hCpos hrect]
  · have h5 := (rotate_shape_spec s.current_piece.shape R C hR hRpos hrect).2.2
      xrot (R - 1 - yrot) hxrot (by omega)
    rw [h5]
    have e : R - 1 - (R - 1 - yrot) = yrot := by omega
    rw [e]

/-- Claim C6 witness: four rotations of the square piece over an empty board. -/
theorem c6_rotate_four_witness :
    rotate_piece (rotate_piece (rotate_piece (rotate_piece sO))) = sO ∧
    ((rotate_shape sO.current_piece.shape).getD 0 []).getD (2 - 1 - 0) false
      = (sO.current_piece.shape.getD 0 []).getD 0 false :=
  c6_rotate_four sO 2 2 0 0 (by decide) (by decide) (by decide) (by decide)
    (by decide) (by decide) (by decide) (by decide) (by decide) (by decide)

/-- Claim C7 counterexample: at column 0 with the current position colliding,
a left move changes the anchor (the clamped move collides and the revert adds
the offset back), so the state is not always left unchanged. -/
theorem c7_left_wall_counterexample :
    sCorner.current_piece.x = 0 ∧
    (move_piece sCorner (-1) 0 0).current_piece.x ≠ sCorner.current_piece.x := by decide

/-- Claim C7 (amended): when the active piece is at column 0 and its current
position does not collide, a left move is a no-op on the whole state; and no
move with a non-positive vertical offset ever locks, so the board, score and
game-over flag are untouched by such moves. -/
theorem c7_left_wall_amended (s : TetrisGame) (k k2 : Nat) (dx2 dy2 : Int)
    (hx : s.current_piece.x = 0)
    (hnc : piece_collides s.board s.current_piece = false)
    (hdy2 : dy2 ≤ 0) :
    move_piece s (-1) 0 k = s ∧
    (move_piece s dx2 dy2 k2).board = s.board ∧
    (move_piece s dx2 dy2 k2).score = s.score ∧
    (move_piece s dx2 dy2 k2).game_over = s.game_over := by
  constructor
  · have hX : ((s.current_piece.x : Int) + (-1)).toNat = s.current_piece.x := by omega
    have hY : ((s.current_piece.y : Int) + 0).toNat = s.current_piece.y := by omega
    have hpiece : ({ s.current_piece with
        x := ((s.current_piece.x : Int) + (-1)).toNat,
        y := ((s.current_piece.y : Int) + 0).toNat } : Tetromino) = s.current_piece := by
      rw [hX, hY]
    have hnc2 : piece_collides s.board
        { s.current_piece with
          x := ((s.current_piece.x : Int) + (-1)).toNat,
          y := ((s.current_piece.y : Int) + 0).toNat } = false := by
      rw [hpiece]
      exact hnc
    rw [move_piece_no_collision s (-1) 0 k hnc2, hpiece]
  · cases hcol : piece_collides s.board
        { s.current_piece with
          x := ((s.current_piece.x : Int) + dx2).toNat,
          y := ((s.current_piece.y : Int) + dy2).toNat } with
    | false =>
        rw [move_piece_no_collision s dx2 dy2 k2 hcol]
        exact ⟨rfl, rfl, rfl⟩
    | true =>
        rw [move_piece_collision_nonpos s dx2 dy2 k2 hcol hdy2]
        exact ⟨rfl, rfl, rfl⟩

/-- Claim C7 witness: a left move at the wall of an empty board is a no-op and
a sideways move never touches board, score or flag. -/
theorem c7_left_wall_amended_witness :
    move_piece sLeft (-1) 0 0 = sLeft ∧
    (move_piece sLeft 1 0 0).board = sLeft.board ∧
    (move_piece sLeft 1 0 0).score = sLeft.score ∧
    (move_piece sLeft 1 0 0).game_over = sLeft.game_over :=
  c7_left_wall_amended sLeft 0 0 1 0 (by decide) (by decide) (by decide)

/-- Claim C8: `spawn_piece` is a no-op when the game-over flag is true;
otherwise it replaces the active piece with a freshly generated one anchored
at (BOARD_WIDTH / 2 - 1, 0) and sets the game-over flag iff that piece
collides at spawn, leaving board and score unchanged in either case. -/
theorem c8_spawn_spec (s t : TetrisGame) (k : Nat)
    (hs : s.game_over = true) (ht : t.game_over = false) :
    spawn_piece s k = s ∧
    (spawn_piece t k).current_piece = generate_piece k ∧
    (generate_piece k).x = BOARD_WIDTH / 2 - 1 ∧
    (generate_piece k).y = 0 ∧
    ((spawn_piece t k).game_over = true ↔
      piece_collides t.board (generate_piece k) = true) ∧
    (spawn_piece t k).board = t.board ∧
    (spawn_piece t k).score = t.score ∧
    (spawn_piece s k).board = s.board ∧
    (spawn_piece s k).score = s.score :=
  ⟨spawn_piece_noop s k hs, (spawn_piece_run t k ht).1, rfl, rfl,
    (spawn_piece_run t k ht).2, spawn_piece_board t k, spawn_piece_score t k,
    spawn_piece_board s k, spawn_piece_score s k⟩

/-- Claim C8 witness: the spawn contract evaluated on a game-over state and a
running state. -/
theorem c8_spawn_spec_witness :
    spawn_piece sOver 3 = sOver ∧
    (spawn_piece sFresh 3).current_piece = generate_piece 3 ∧
    (generate_piece 3).x = BOARD_WIDTH / 2 - 1 ∧
    (generate_piece 3).y = 0 ∧
    ((spawn_piece sFresh 3).game_over = true ↔
      piece_collides sFresh.board (generate_piece 3) = true) ∧
    (spawn_piece sFresh 3).board = sFresh.board ∧
    (spawn_piece sFresh 3).score = sFresh.score ∧
    (spawn_piece sOver 3).board = sOver.board ∧
    (spawn_piece sOver 3).score = sOver.score :=
  c8_spawn_spec sOver sFresh 3 (by decide) (by decide)

/-- Claim C9: every operation of one game-state instance leaves the score
unchanged or increases it, so the score is monotonically non-decreasing. -/
theorem c9_score_monotone (s : TetrisGame) (dx dy : Int) (k now : Nat) :
    s.score ≤ (move_piece s dx dy k).score ∧
    s.score ≤ (rotate_piece s).score ∧
    s.score ≤ (lock_piece s k).score ∧
    s.score ≤ (clear_lines s).score ∧
    s.score ≤ (spawn_piece s k).score ∧
    s.score ≤ (update s now k).score := by
  refine ⟨move_piece_score_ge s dx dy k, ?_, lock_piece_score_ge s k, ?_, ?_,
    update_score_ge s now k⟩
  · rw [rotate_piece_score]
  · rw [clear_lines_score]
    exact Nat.le_add_right _ _
  · rw [spawn_piece_score]

/-- Claim C10: under a non-colliding active piece every cell written by the
lock loop lies inside the fixed board bounds (so the unchecked indexing of
`lock_piece` is in-bounds), and every operation preserves the board's shape
of `BOARD_HEIGHT` rows of `BOARD_WIDTH` cells. -/
theorem c10_lock_safety (s : TetrisGame) (dx dy : Int) (k now dy0 dx0 : Nat) :
    (piece_collides s.board s.current_piece = false →
      dy0 < s.current_piece.shape.length →
      (s.current_piece.shape.getD dy0 []).getD dx0 false = true →
      s.current_piece.y + dy0 < BOARD_HEIGHT ∧ s.current_piece.x + dx0 < BOARD_WIDTH) ∧
    (boardWF s.board →
      boardWF (move_piece s dx dy k).board ∧ boardWF (rotate_piece s).board ∧
      boardWF (lock_piece s k).board ∧ boardWF (clear_lines s).board ∧
      boardWF (spawn_piece s k).board ∧ boardWF (update s now k).board) := by
  constructor
  · intro hnc hdy0 hcell
    have hdx0len : dx0 < (s.current_piece.shape.getD dy0 []).length := by
      by_contra hcon
      rw [getD_oob _ dx0 false (Nat.le_of_not_lt hcon)] at hcell
      exact Bool.false_ne_true hcell
    exact not_collides_inbounds s.board s.current_piece hnc dy0 dx0 hdy0 hdx0len hcell
  · intro hwf
    exact ⟨move_piece_boardWF s dx dy k hwf, rotate_piece_boardWF s hwf,
      lock_piece_boardWF s k hwf, clear_lines_boardWF s hwf,
      spawn_piece_boardWF s k hwf, update_boardWF s now k hwf⟩

/-- Claim C10 witness: bounds and shape preservation on a concrete state. -/
theorem c10_lock_safety_witness :
    (sFloorB.current_piece.y + 0 < BOARD_HEIGHT ∧
      sFloorB.current_piece.x + 0 < BOARD_WIDTH) ∧
    (boardWF (move_piece sFloorB 1 0 0).board ∧ boardWF (rotate_piece sFloorB).board ∧
      boardWF (lock_piece sFloorB 0).board ∧ boardWF (clear_lines sFloorB).board ∧
      boardWF (spawn_piece sFloorB 0).board ∧ boardWF (update sFloorB 0 0).board) := by
  have h := c10_lock_safety sFloorB 1 0 0 0 0 0
  exact ⟨h.1 (by decide) (by decide) (by decide), h.2 (by decide)⟩
